import Mathlib

/-!
Shallow embedding of the tmignore matching-and-traversal core:
`src/config.rs` (exclude-path / skip-path resolution, tilde expansion),
`src/patterns.rs` (pattern catalog and resolution) and
`src/scanner.rs` (sentinel checks, directory index, the pruning walk and
the final exclude-path pass), together with theorems settling the frozen
claims about them.

Modelling conventions:
* Rust `String` is Lean `String`; `Vec<T>` is `List T`.
* A filesystem is the inductive tree `FS`; a `PathBuf` is modelled by its
  component list (`FsPath`), with a leading `"/"` component marking an
  absolute path, matching `Path` equality in Rust (component-wise).
  Relative paths resolve to nothing (the model has no working directory).
* `walkdir::WalkDir` with `skip_current_dir` is the recursive pre-order
  walk `walkNode`/`walkChildren`.
* The `glob` crate's matching of one file name is the token matcher
  `globMatch`; a malformed class (unclosed `[`) makes `glob::glob` return
  `Err`, which `sentinel_exists` turns into `false`, modelled by the
  tokenizer returning `none`.
* `std::env::var("HOME")` is an explicit `Option String` argument; the
  `expect` panic on a missing home is the `none` result of `expand_tilde`.
-/

/-- `config.rs`: a user-defined pattern from the config file. -/
structure CustomPattern where
  name : String
  directory : String
  sentinel : String
deriving DecidableEq

/-- `patterns.rs`: a scan pattern (built-in or custom). -/
structure Pattern where
  name : String
  directory : String
  sentinel : String
deriving DecidableEq

/-- `impl From<&CustomPattern> for Pattern`. -/
def Pattern.ofCustom (cp : CustomPattern) : Pattern :=
  { name := cp.name, directory := cp.directory, sentinel := cp.sentinel }

/-- `config.rs`: the configuration record. -/
structure Config where
  scan_roots : List String
  extra_exclude_paths : List String
  disable_exclude_paths : List String
  disable_patterns : List String
  custom_patterns : List CustomPattern
deriving DecidableEq

/-- `config.rs`: `SYSTEM_SKIP_PATHS`. -/
def SYSTEM_SKIP_PATHS : List String :=
  ["~/.Trash", "~/Library", "/System", "/Library"]

/-- `config.rs`: `builtin_exclude_paths()`. -/
def builtin_exclude_paths : List String :=
  [ "~/.rbenv",
    "~/.pyenv",
    "~/.nvm",
    "~/.asdf",
    "~/.local/share/mise",
    "~/.rustup",
    "~/.cargo",
    "~/.gradle",
    "~/.m2",
    "~/.npm",
    "~/.pnpm-store",
    "~/.cocoapods",
    "~/.nuget",
    "~/go/pkg",
    "~/.gem",
    "~/.hex",
    "~/.cpan",
    "~/.bun",
    "~/.deno",
    "~/.yarn",
    "~/.npm-global",
    "~/.cache/node",
    "/opt/homebrew",
    "/nix",
    "~/.cache/nix",
    "~/.local/share/devbox",
    "~/Library/Containers/com.docker.docker",
    "~/.colima",
    "~/.lima",
    "~/Library/Developer/Xcode/DerivedData",
    "~/Library/Developer/Xcode/iOS DeviceSupport",
    "~/Library/Developer/Xcode/watchOS DeviceSupport",
    "~/Library/Developer/Xcode/tvOS DeviceSupport",
    "~/Library/Developer/CoreSimulator/Devices" ]

/-- `patterns.rs`: `builtin_patterns()`, in catalog order. -/
def builtin_patterns : List Pattern :=
  [ ⟨"node", "node_modules", "package.json"⟩,
    ⟨"next", ".next", "package.json"⟩,
    ⟨"nuxt", ".nuxt", "package.json"⟩,
    ⟨"svelte-kit", ".svelte-kit", "package.json"⟩,
    ⟨"angular", ".angular", "package.json"⟩,
    ⟨"parcel", ".parcel-cache", "package.json"⟩,
    ⟨"turbo", ".turbo", "package.json"⟩,
    ⟨"bower", "bower_components", "bower.json"⟩,
    ⟨"yarn", ".yarn", ".yarnrc.yml"⟩,
    ⟨"composer", "vendor", "composer.json"⟩,
    ⟨"bundler", "vendor", "Gemfile"⟩,
    ⟨"cargo", "target", "Cargo.toml"⟩,
    ⟨"go", "vendor", "go.mod"⟩,
    ⟨"maven", "target", "pom.xml"⟩,
    ⟨"gradle", ".gradle", "build.gradle"⟩,
    ⟨"gradle-kts", ".gradle", "build.gradle.kts"⟩,
    ⟨"sbt", "target", "build.sbt"⟩,
    ⟨"swift", ".build", "Package.swift"⟩,
    ⟨"cocoapods", "Pods", "Podfile"⟩,
    ⟨"carthage", "Carthage", "Cartfile"⟩,
    ⟨"flutter", ".dart_tool", "pubspec.yaml"⟩,
    ⟨"pub", ".packages", "pubspec.yaml"⟩,
    ⟨"python-venv", ".venv", "pyproject.toml"⟩,
    ⟨"python-tox", ".tox", "tox.ini"⟩,
    ⟨"python-nox", ".nox", "noxfile.py"⟩,
    ⟨"elixir-deps", "deps", "mix.exs"⟩,
    ⟨"elixir-build", "_build", "mix.exs"⟩,
    ⟨"haskell", ".stack-work", "stack.yaml"⟩,
    ⟨"vagrant", ".vagrant", "Vagrantfile"⟩,
    ⟨"terraform", ".terraform", ".terraform.lock.hcl"⟩,
    ⟨"terragrunt", ".terragrunt-cache", "terragrunt.hcl"⟩,
    ⟨"cdk", "cdk.out", "cdk.json"⟩,
    ⟨"dotnet-bin", "bin", "*.csproj"⟩,
    ⟨"dotnet-obj", "obj", "*.csproj"⟩,
    ⟨"zig", "zig-cache", "build.zig"⟩,
    ⟨"ocaml", "_build", "dune-project"⟩,
    ⟨"godot", ".godot", "project.godot"⟩,
    ⟨"clojure", ".cpcache", "deps.edn"⟩,
    ⟨"renv", "renv", "renv.lock"⟩,
    ⟨"devbox", ".devbox", "devbox.json"⟩ ]

/-- The push-if-absent loop shared by `resolved_exclude_paths` and
`resolved_skip_paths`: `for x in extras { if !paths.contains(&x) { paths.push(x) } }`. -/
def appendUnique (paths : List String) (extras : List String) : List String :=
  extras.foldl (fun acc e => if e ∈ acc then acc else acc ++ [e]) paths

/-- `config.rs`: `Config::resolved_exclude_paths`. -/
def Config.resolved_exclude_paths (cfg : Config) : List String :=
  appendUnique
    (builtin_exclude_paths.filter
      (fun p => !(cfg.disable_exclude_paths.any (fun d => d == p))))
    cfg.extra_exclude_paths

/-- `config.rs`: `Config::resolved_skip_paths`. -/
def Config.resolved_skip_paths (cfg : Config) : List String :=
  appendUnique SYSTEM_SKIP_PATHS cfg.resolved_exclude_paths

/-- `patterns.rs`: `resolve_patterns`. -/
def resolve_patterns (disable : List String) (custom : List CustomPattern) : List Pattern :=
  let patterns := builtin_patterns.filter
    (fun p => !(disable.any (fun d => d == p.name)))
  custom.foldl (fun acc cp => acc ++ [Pattern.ofCustom cp]) patterns

/-- `PathBuf::from(base).join(rest)`: if `rest` is absolute it replaces the base. -/
def pathJoin (base : String) (rest : String) : String :=
  match rest.data with
  | '/' :: _ => rest
  | _ => base ++ "/" ++ rest

/-- `config.rs`: `expand_tilde`, with the `HOME` environment variable passed
explicitly; `none` models the `expect("HOME not set")` panic. -/
def expand_tilde (home : Option String) (path : String) : Option String :=
  match path.data with
  | '~' :: '/' :: rest =>
    match home with
    | some h => some (pathJoin h (String.mk rest))
    | none => none
  | _ => if path = "~" then home else some path

/-- `expand_tilde` under a known home directory (always succeeds). -/
def expand_tilde_total (home : String) (path : String) : String :=
  (expand_tilde (some home) path).getD path

/-- Split a character stream at every `/`. -/
def splitPathAux (cur : List Char) : List Char → List (List Char)
  | [] => [cur.reverse]
  | c :: rest =>
    if c = '/' then cur.reverse :: splitPathAux [] rest
    else splitPathAux (c :: cur) rest

/-- A `PathBuf` as its component list; a leading `"/"` component marks an
absolute path. Comparing `FsPath`s models Rust `Path` equality. -/
abbrev FsPath := List String

/-- The component list of a path string. -/
def splitPath (s : String) : FsPath :=
  let comps := ((splitPathAux [] s.data).map (fun cs => String.mk cs)).filter
    (fun c => c ≠ "")
  match s.data with
  | '/' :: _ => "/" :: comps
  | _ => comps

/-- One token of a glob pattern (`glob` crate). -/
inductive GlobTok where
  | lit (c : Char)
  | anyChar
  | star
  | cls (cs : List Char)
deriving DecidableEq

/-- Tokenize a glob pattern; `none` models `glob::Pattern` rejecting a
malformed pattern (unclosed class). `inCls`/`acc` carry the class parse. -/
def globToks (inCls : Bool) (acc : List Char) : List Char → Option (List GlobTok)
  | [] => if inCls then none else some []
  | c :: rest =>
    if inCls then
      if c = ']' then (globToks false [] rest).map (fun ts => GlobTok.cls acc.reverse :: ts)
      else globToks true (c :: acc) rest
    else
      if c = '[' then globToks true [] rest
      else if c = '*' then (globToks false [] rest).map (fun ts => GlobTok.star :: ts)
      else if c = '?' then (globToks false [] rest).map (fun ts => GlobTok.anyChar :: ts)
      else (globToks false [] rest).map (fun ts => GlobTok.lit c :: ts)

/-- All suffixes of a character list (used for `*`). -/
def suffixes : List Char → List (List Char)
  | [] => [[]]
  | c :: cs => (c :: cs) :: suffixes cs

/-- Membership in a glob character class body (ranges and literals). -/
def classRanges : List Char → Char → Bool
  | a :: '-' :: b :: rest, c => decide (a ≤ c ∧ c ≤ b) || classRanges rest c
  | a :: rest, c => (a == c) || classRanges rest c
  | [], _ => false

/-- Membership in a glob character class, honouring a leading `!` negation. -/
def classMatch (cls : List Char) (c : Char) : Bool :=
  match cls with
  | '!' :: rest => !(classRanges rest c)
  | _ => classRanges cls c

/-- Match a tokenized glob pattern against a file name. -/
def globTokMatch : List GlobTok → List Char → Bool
  | [], s => s.isEmpty
  | GlobTok.star :: ts, s => (suffixes s).any (fun t => globTokMatch ts t)
  | GlobTok.anyChar :: _, [] => false
  | GlobTok.anyChar :: ts, _ :: cs => globTokMatch ts cs
  | GlobTok.lit _ :: _, [] => false
  | GlobTok.lit p :: ts, c :: cs => p == c && globTokMatch ts cs
  | GlobTok.cls _ :: _, [] => false
  | GlobTok.cls cls :: ts, c :: cs => classMatch cls c && globTokMatch ts cs

/-- `glob` crate: does the pattern match the file name? A malformed pattern
matches nothing (`glob::glob` returns `Err`). -/
def globMatch (pat s : List Char) : Bool :=
  match globToks false [] pat with
  | some ts => globTokMatch ts s
  | none => false

/-- A filesystem tree: named files and directories. -/
inductive FS where
  | file (name : String)
  | dir (name : String) (children : List FS)

/-- The basename of an entry. -/
def FS.name : FS → String
  | .file n => n
  | .dir n _ => n

/-- `scanner.rs`: `sentinel_exists(parent, sentinel)`, the parent directory
given by its entries. `String::contains` of the three glob metacharacters is
the scan of the sentinel's characters; the exact branch is
`parent.join(sentinel).exists()`, existence of an entry of either kind. -/
def sentinel_exists (parentEntries : List FS) (sentinel : String) : Bool :=
  if sentinel.data.any (fun c => c == '*' || c == '?' || c == '[') then
    parentEntries.any (fun e => globMatch sentinel.data e.name.data)
  else
    parentEntries.any (fun e => e.name == sentinel)

/-- `scanner.rs`: `build_directory_index`, as the lookup it implements: the
`HashMap` entry for a basename holds the patterns with that `directory`, in
registry order (the map is filled by one pass pushing in order). -/
def build_directory_index (patterns : List Pattern) : String → List Pattern :=
  fun dirName => patterns.filter (fun p => p.directory == dirName)

/-- `scanner.rs`: one scan result. -/
structure ScanMatch where
  path : FsPath
  pattern_name : String
deriving DecidableEq

/-- The mutable scan state of `scan_optimized`: `excluded_dirs` and `matches` (field `found`). -/
structure ScanState where
  excluded : List FsPath
  found : List ScanMatch
deriving DecidableEq

/-- Look a component path up in a tree (the empty path is the tree itself). -/
def lookupPath : FS → List String → Option FS
  | node, [] => some node
  | FS.file _, _ :: _ => none
  | FS.dir _ children, n :: rest =>
    match children.find? (fun c => c.name == n) with
    | some c => lookupPath c rest
    | none => none

/-- Resolve an `FsPath` against the filesystem root; relative paths resolve
to nothing (the model has no working directory). -/
def lookupAbs (fs : FS) (p : FsPath) : Option FS :=
  match p with
  | "/" :: rest => lookupPath fs rest
  | _ => none

/-- `Path::exists()` on an `FsPath`. -/
def pathExists (fs : FS) (p : FsPath) : Bool :=
  (lookupAbs fs p).isSome

mutual
/-- One visit of the `WalkDir` loop of `scan_optimized` at a directory entry:
skip-set check, `excluded_dirs` check, then the candidate loop over
`build_directory_index`, matching against the parent's entries; a match
records the directory and prunes (`skip_current_dir`), otherwise the walk
descends into the children. `parentCs` is `path.parent()`'s entry list. -/
def walkNode (pats : List Pattern) (skipSet : List FsPath) (parentCs : Option (List FS))
    (path : FsPath) (node : FS) (st : ScanState) : ScanState :=
  match node with
  | FS.file _ => st
  | FS.dir nm children =>
    if path ∈ skipSet then st
    else if path ∈ st.excluded then st
    else
      match parentCs with
      | some pcs =>
        match (build_directory_index pats nm).find?
            (fun p => sentinel_exists pcs p.sentinel) with
        | some p =>
          { excluded := path :: st.excluded,
            found := st.found ++ [{ path := path, pattern_name := p.name }] }
        | none => walkChildren pats skipSet children path children st
      | none => walkChildren pats skipSet children path children st

/-- Walk a directory's entries in order; `pcs` is that directory's entry
list, passed as the parent of each child. -/
def walkChildren (pats : List Pattern) (skipSet : List FsPath) (pcs : List FS)
    (parentPath : FsPath) (nodes : List FS) (st : ScanState) : ScanState :=
  match nodes with
  | [] => st
  | c :: cs =>
    walkChildren pats skipSet pcs parentPath cs
      (walkNode pats skipSet (some pcs) (parentPath ++ [c.name]) c st)
end

/-- `scanner.rs`: `build_skip_set` (the `HashSet<PathBuf>` as a path list). -/
def build_skip_set (home : String) (cfg : Config) : List FsPath :=
  cfg.resolved_skip_paths.map (fun s => splitPath (expand_tilde_total home s))

/-- The entry list of a path's parent directory (`path.parent()`). -/
def parentChildrenAt (fs : FS) (p : FsPath) : Option (List FS) :=
  match p with
  | [] => none
  | _ =>
    match lookupAbs fs p.dropLast with
    | some (FS.dir _ cs) => some cs
    | _ => none

/-- One iteration of the root loop of `scan_optimized`: a missing root is
warned about and skipped, an existing one is walked. -/
def scanRoot (pats : List Pattern) (skipSet : List FsPath) (fs : FS)
    (root : FsPath) (st : ScanState) : ScanState :=
  match lookupAbs fs root with
  | none => st
  | some node => walkNode pats skipSet (parentChildrenAt fs root) root node st

/-- The tree-walk phase of `scan_optimized`: all roots, in order, sharing
`excluded_dirs` and `matches` (field `found`). -/
def scanWalk (home : String) (cfg : Config) (pats : List Pattern) (fs : FS) : ScanState :=
  cfg.scan_roots.foldl
    (fun st rootStr =>
      scanRoot pats (build_skip_set home cfg) fs
        (splitPath (expand_tilde_total home rootStr)) st)
    { excluded := [], found := [] }

/-- The final pass of `scan_optimized`: one `exclude_path` record per
resolved exclude path that exists on disk. -/
def excludePass (home : String) (cfg : Config) (fs : FS) : List ScanMatch :=
  cfg.resolved_exclude_paths.foldl
    (fun acc s =>
      let p := splitPath (expand_tilde_total home s)
      if pathExists fs p then acc ++ [{ path := p, pattern_name := "exclude_path" }]
      else acc)
    []

/-- `scanner.rs`: `scan_optimized(config, patterns)` over the modelled
filesystem: the tree walk followed by the exclude-path pass. -/
def scan_optimized (home : String) (cfg : Config) (pats : List Pattern) (fs : FS) :
    List ScanMatch :=
  (scanWalk home cfg pats fs).found ++ excludePass home cfg fs

/-- The invariant the walk maintains: every recorded match path is in
`excluded_dirs`, and no path is recorded twice. -/
def WalkInv (st : ScanState) : Prop :=
  (st.found.map ScanMatch.path).Nodup ∧ ∀ m ∈ st.found, m.path ∈ st.excluded

theorem any_beq_iff_mem (l : List String) (a : String) :
    ((l.any fun x => x == a) = true) ↔ a ∈ l := by
  simp [List.any_eq_true]

theorem appendUnique_cons (ps : List String) (e : String) (es : List String) :
    appendUnique ps (e :: es) = appendUnique (if e ∈ ps then ps else ps ++ [e]) es := rfl

theorem mem_appendUnique :
    ∀ (es ps : List String) (x : String), x ∈ appendUnique ps es ↔ x ∈ ps ∨ x ∈ es := by
  intro es
  induction es with
  | nil => intro ps x; simp [appendUnique]
  | cons e es ih =>
    intro ps x
    rw [appendUnique_cons]
    by_cases he : e ∈ ps
    · rw [if_pos he, ih]
      constructor
      · rintro (h | h)
        · exact Or.inl h
        · exact Or.inr (List.mem_cons_of_mem e h)
      · rintro (h | h)
        · exact Or.inl h
        · rcases List.mem_cons.mp h with rfl | h
          · exact Or.inl he
          · exact Or.inr h
    · rw [if_neg he, ih]
      simp only [List.mem_append, List.mem_singleton, List.mem_cons]
      tauto

theorem appendUnique_split :
    ∀ (es ps : List String),
      ∃ t, appendUnique ps es = ps ++ t ∧ t.Sublist es ∧ ∀ x ∈ t, x ∉ ps := by
  intro es
  induction es with
  | nil => intro ps; exact ⟨[], by simp [appendUnique], by simp, by simp⟩
  | cons e es ih =>
    intro ps
    rw [appendUnique_cons]
    by_cases he : e ∈ ps
    · rw [if_pos he]
      obtain ⟨t, h1, h2, h3⟩ := ih ps
      exact ⟨t, h1, h2.cons e, h3⟩
    · rw [if_neg he]
      obtain ⟨t, h1, h2, h3⟩ := ih (ps ++ [e])
      refine ⟨e :: t, ?_, h2.cons₂ e, ?_⟩
      · rw [h1]; simp
      · intro x hx
        rcases List.mem_cons.mp hx with rfl | hx
        · exact he
        · exact fun hxp => h3 x hx (by simp [hxp])

theorem appendUnique_nodup :
    ∀ (es ps : List String), ps.Nodup → (appendUnique ps es).Nodup := by
  intro es
  induction es with
  | nil => intro ps h; simpa [appendUnique] using h
  | cons e es ih =>
    intro ps h
    rw [appendUnique_cons]
    by_cases he : e ∈ ps
    · rw [if_pos he]; exact ih ps h
    · rw [if_neg he]; exact ih _ (by simp [List.nodup_append, h, he])

theorem builtin_exclude_paths_nodup : builtin_exclude_paths.Nodup := by decide

/-- C1, as frozen, is refuted by the code: an extra path equal to a disabled
built-in is appended back, so the result does contain a built-in path of D2.
Here with D2 = extras = `["~/.cargo"]`. -/
theorem C1_counterexample :
    "~/.cargo" ∈ builtin_exclude_paths ∧
      "~/.cargo" ∈
        (Config.mk ["~"] ["~/.cargo"] ["~/.cargo"] [] []).resolved_exclude_paths := by
  constructor
  · decide
  · decide

/-- C1 (amended): for every configuration, `resolved_exclude_paths` contains
no built-in path of `disable_exclude_paths` unless that path is also listed
in `extra_exclude_paths`; it contains every built-in not disabled and every
extra; no path occurs twice; and the output is the disabled-filtered built-in
catalog, in catalog order, followed by the new extras in configured order. -/
theorem C1_resolved_exclude_paths_amended (cfg : Config) :
    (∀ p, p ∈ builtin_exclude_paths → p ∈ cfg.disable_exclude_paths →
      p ∉ cfg.extra_exclude_paths → p ∉ cfg.resolved_exclude_paths)
    ∧ (∀ p, p ∈ builtin_exclude_paths → p ∉ cfg.disable_exclude_paths →
      p ∈ cfg.resolved_exclude_paths)
    ∧ (∀ p, p ∈ cfg.extra_exclude_paths → p ∈ cfg.resolved_exclude_paths)
    ∧ cfg.resolved_exclude_paths.Nodup
    ∧ ∃ t,
        cfg.resolved_exclude_paths =
          builtin_exclude_paths.filter
            (fun p => !(cfg.disable_exclude_paths.any (fun d => d == p))) ++ t
        ∧ t.Sublist cfg.extra_exclude_paths
        ∧ ∀ x ∈ t,
            x ∉ builtin_exclude_paths.filter
              (fun p => !(cfg.disable_exclude_paths.any (fun d => d == p))) := by
  refine ⟨?_, ?_, ?_, ?_, ?_⟩
  · intro p hb hd he hr
    rcases (mem_appendUnique _ _ _).mp hr with h | h
    · have := List.of_mem_filter h
      rw [Bool.not_eq_eq_eq_not, Bool.not_true] at this
      exact absurd ((any_beq_iff_mem _ _).mpr hd) (by simp [this])
    · exact he h
  · intro p hb hd
    refine (mem_appendUnique _ _ _).mpr
      (Or.inl (List.mem_filter.mpr ⟨hb, ?_⟩))
    simp only [Bool.not_eq_true', List.any_eq_false, beq_iff_eq]
    exact fun x hx hxp => hd (hxp ▸ hx)
  · intro p hp
    exact (mem_appendUnique _ _ _).mpr (Or.inr hp)
  · exact appendUnique_nodup _ _ (builtin_exclude_paths_nodup.filter _)
  · exact appendUnique_split _ _

theorem foldl_push_eq {α β : Type} (f : α → β) :
    ∀ (l : List α) (acc : List β),
      l.foldl (fun a x => a ++ [f x]) acc = acc ++ l.map f := by
  intro l
  induction l with
  | nil => intro acc; simp
  | cons x l ih => intro acc; simp only [List.foldl_cons, List.map_cons]; rw [ih]; simp

theorem resolve_patterns_eq (d : List String) (c : List CustomPattern) :
    resolve_patterns d c =
      builtin_patterns.filter (fun p => !(d.any (fun x => x == p.name)))
        ++ c.map Pattern.ofCustom := by
  unfold resolve_patterns
  exact foldl_push_eq _ _ _

theorem any_beq_name_iff_mem (l : List String) (a : String) :
    ((l.any fun x => x == a) = false) ↔ a ∉ l := by
  rw [← Bool.not_eq_true, not_iff_not, any_beq_iff_mem]

theorem not_any_beq_eq_decide (l : List String) (a : String) :
    (!(l.any fun x => x == a)) = decide (a ∉ l) := by
  cases h : l.any fun x => x == a with
  | true => simp [(any_beq_iff_mem l a).mp h]
  | false => simp [(any_beq_name_iff_mem l a).mp h]

/-- C7: the resolved active pattern set is the built-in catalog with every
pattern whose name is disabled removed, followed by the custom patterns in
configured order with no uniqueness check; disabling a name that matches no
built-in is a silent no-op (and the function is total, so it never fails). -/
theorem C7_resolve_patterns (d : List String) (c : List CustomPattern) :
    resolve_patterns d c =
      builtin_patterns.filter (fun p => decide (p.name ∉ d)) ++ c.map Pattern.ofCustom
    ∧ (∀ p, p ∈ resolve_patterns d c ↔
        (p ∈ builtin_patterns ∧ p.name ∉ d) ∨ p ∈ c.map Pattern.ofCustom)
    ∧ (∀ n, n ∉ builtin_patterns.map Pattern.name →
        resolve_patterns (n :: d) c = resolve_patterns d c) := by
  have hfe : ∀ (d' : List String),
      builtin_patterns.filter (fun p => !(d'.any (fun x => x == p.name))) =
        builtin_patterns.filter (fun p => decide (p.name ∉ d')) :=
    fun d' => List.filter_congr (fun p _ => not_any_beq_eq_decide d' p.name)
  refine ⟨by rw [resolve_patterns_eq, hfe], ?_, ?_⟩
  · intro p
    rw [resolve_patterns_eq, hfe]
    simp [List.mem_append, List.mem_filter]
  · intro n hn
    rw [resolve_patterns_eq, resolve_patterns_eq, hfe, hfe]
    have : builtin_patterns.filter (fun p => decide (p.name ∉ n :: d)) =
        builtin_patterns.filter (fun p => decide (p.name ∉ d)) := by
      apply List.filter_congr
      intro p hp
      have hne : p.name ≠ n := fun h => hn (h ▸ List.mem_map_of_mem Pattern.name hp)
      simp [List.mem_cons, hne]
    rw [this]

/-- C9: a custom pattern stays active even when its name is in the disable
list: the disable filter touches only the built-in catalog, and every custom
pattern is appended afterwards. -/
theorem C9_custom_pattern_survives_disable (d : List String) (c : List CustomPattern)
    (cp : CustomPattern) (hcp : cp ∈ c) :
    Pattern.ofCustom cp ∈ resolve_patterns d c := by
  rw [resolve_patterns_eq]
  exact List.mem_append_right _ (List.mem_map_of_mem Pattern.ofCustom hcp)

/-- C9 witness: the custom pattern `my-build`, with its own name disabled,
is still in the resolved set. -/
theorem C9_witness :
    ("my-build" : String) ∈ (["my-build"] : List String) ∧
      Pattern.ofCustom ⟨"my-build", "dist", "turbo.json"⟩ ∈
        resolve_patterns ["my-build"] [⟨"my-build", "dist", "turbo.json"⟩] :=
  ⟨by decide,
    C9_custom_pattern_survives_disable ["my-build"] [⟨"my-build", "dist", "turbo.json"⟩]
      ⟨"my-build", "dist", "turbo.json"⟩ (by decide)⟩

/-- C10: the resolved skip-path list always begins with the four fixed system
skip paths, in their fixed order, whatever the configuration; in particular
every system skip path is in the skip set. -/
theorem C10_system_skip_paths_first (cfg : Config) :
    (∃ t, cfg.resolved_skip_paths = SYSTEM_SKIP_PATHS ++ t)
    ∧ ∀ p ∈ SYSTEM_SKIP_PATHS, p ∈ cfg.resolved_skip_paths := by
  constructor
  · obtain ⟨t, h1, _, _⟩ := appendUnique_split cfg.resolved_exclude_paths SYSTEM_SKIP_PATHS
    exact ⟨t, h1⟩
  · intro p hp
    exact (mem_appendUnique _ _ _).mpr (Or.inl hp)

/-- C8, as frozen, is refuted by the code: for `"~//etc"` the remainder after
`"~/"` is itself absolute, and `PathBuf::join` then discards the home
directory, so the leading `"~/"` is not replaced by the home directory. -/
theorem C8_counterexample :
    expand_tilde (some "/home/user") "~//etc" = some "/etc" ∧
      expand_tilde (some "/home/user") "~//etc" ≠ some "/home/user//etc" := by
  constructor
  · decide
  · decide

/-- C8 (amended): a leading `"~/"` whose remainder is relative is replaced by
the home directory; if the remainder itself begins with `'/'`, `join` returns
the remainder alone; the exact string `"~"` becomes the home directory; when
the home directory cannot be determined, expanding `"~"` or `"~/..."` fails
(the `expect` panic); every other string passes through unchanged with no
other expansion, whether or not a home directory is available. -/
theorem C8_expand_tilde_amended (h : String) (path : String) :
    ((∃ rest, path.data = '~' :: '/' :: '/' :: rest) →
      expand_tilde (some h) path = some (String.mk (path.data.drop 2)))
    ∧ ((∃ rest, path.data = '~' :: '/' :: rest ∧ rest.head? ≠ some '/') →
      expand_tilde (some h) path = some (h ++ "/" ++ String.mk (path.data.drop 2)))
    ∧ (path = "~" → expand_tilde (some h) path = some h)
    ∧ (((∃ rest, path.data = '~' :: '/' :: rest) ∨ path = "~") →
      expand_tilde none path = none)
    ∧ ((¬ ∃ rest, path.data = '~' :: '/' :: rest) → path ≠ "~" →
      ∀ ho, expand_tilde ho path = some path) := by
  refine ⟨?_, ?_, ?_, ?_, ?_⟩
  · rintro ⟨rest, hr⟩
    unfold expand_tilde
    rw [hr]
    rfl
  · rintro ⟨rest, hr, hhead⟩
    unfold expand_tilde
    rw [hr]
    show some (pathJoin h (String.mk rest)) = _
    unfold pathJoin
    split
    · next xs heq =>
      exact absurd (by simpa using congrArg List.head? heq) hhead
    · rfl
  · rintro rfl
    rfl
  · rintro (⟨rest, hr⟩ | rfl)
    · unfold expand_tilde
      rw [hr]
      rfl
    · rfl
  · intro hno hne ho
    unfold expand_tilde
    split
    · next rest heq => exact absurd ⟨rest, heq⟩ hno
    · rw [if_neg hne]

theorem find?_first {α : Type} (f : α → Bool) (p : α) :
    ∀ (l1 l2 : List α), (∀ q ∈ l1, f q = false) → f p = true →
      (l1 ++ p :: l2).find? f = some p := by
  intro l1
  induction l1 with
  | nil => intro l2 _ hp; simp [List.find?_cons, hp]
  | cons a l1 ih =>
    intro l2 hfail hp
    have ha := hfail a (List.mem_cons_self a l1)
    simp only [List.cons_append, List.find?_cons, ha, cond_false]
    exact ih l2 (fun q hq => hfail q (List.mem_cons_of_mem a hq)) hp

/-- C3: a visited directory whose path is in the skip set is neither entered
nor reported, whatever its basename, its children, or the parent's entries:
the skip-set check comes strictly before the pattern-match check, so the walk
state is returned untouched. -/
theorem C3_skip_set_wins (pats : List Pattern) (skipSet : List FsPath)
    (parentCs : Option (List FS)) (path : FsPath) (nm : String) (children : List FS)
    (st : ScanState) (hskip : path ∈ skipSet) :
    walkNode pats skipSet parentCs path (FS.dir nm children) st = st := by
  simp [walkNode, hskip]

/-- C3 witness: a skipped directory that would otherwise pattern-match
(basename `node_modules`, sentinel `package.json` present in the parent)
produces no state change at all. -/
theorem C3_witness :
    (["/", "proj", "node_modules"] : FsPath) ∈ ([["/", "proj", "node_modules"]] : List FsPath)
    ∧ sentinel_exists [FS.file "package.json"] "package.json" = true
    ∧ walkNode [⟨"node", "node_modules", "package.json"⟩] [["/", "proj", "node_modules"]]
        (some [FS.file "package.json"]) ["/", "proj", "node_modules"]
        (FS.dir "node_modules" [FS.dir "sub" []]) ⟨[], []⟩ = ⟨[], []⟩ :=
  ⟨by decide, by decide,
    C3_skip_set_wins [⟨"node", "node_modules", "package.json"⟩]
      [["/", "proj", "node_modules"]] (some [FS.file "package.json"])
      ["/", "proj", "node_modules"] "node_modules" [FS.dir "sub" []] ⟨[], []⟩ (by decide)⟩

/-- C5: within a directory, candidates sharing the basename are tried in
registry order; the first whose sentinel check (against the parent's entries)
succeeds produces the single match for that directory, carrying its pattern
name, and the walk does not descend; moreover the per-basename candidate
list of a resolved pattern set is the disabled-filtered built-ins in catalog
order followed by the custom patterns in configured order. -/
theorem C5_first_candidate_wins (pats : List Pattern) (skipSet : List FsPath)
    (pcs : List FS) (path : FsPath) (nm : String) (children : List FS) (st : ScanState)
    (l1 : List Pattern) (p : Pattern) (l2 : List Pattern)
    (horder : build_directory_index pats nm = l1 ++ p :: l2)
    (hfail : ∀ q ∈ l1, sentinel_exists pcs q.sentinel = false)
    (hp : sentinel_exists pcs p.sentinel = true)
    (hskip : path ∉ skipSet) (hexc : path ∉ st.excluded) :
    walkNode pats skipSet (some pcs) path (FS.dir nm children) st =
      { excluded := path :: st.excluded,
        found := st.found ++ [{ path := path, pattern_name := p.name }] }
    ∧ ∀ (d : List String) (c : List CustomPattern) (dn : String),
        build_directory_index (resolve_patterns d c) dn =
          build_directory_index
            (builtin_patterns.filter (fun q => !(d.any (fun x => x == q.name)))) dn
            ++ build_directory_index (c.map Pattern.ofCustom) dn := by
  constructor
  · have hfind : (build_directory_index pats nm).find?
        (fun q => sentinel_exists pcs q.sentinel) = some p := by
      rw [horder]; exact find?_first _ p l1 l2 hfail hp
    simp [walkNode, hskip, hexc, hfind]
  · intro d c dn
    rw [resolve_patterns_eq]
    unfold build_directory_index
    exact List.filter_append _ _

/-- C5 witness: with the two `vendor` candidates `composer` then `bundler`
and only a `Gemfile` in the parent, the recorded match is `bundler`. -/
theorem C5_witness :
    walkNode [⟨"composer", "vendor", "composer.json"⟩, ⟨"bundler", "vendor", "Gemfile"⟩]
        [] (some [FS.file "Gemfile"]) ["/", "proj", "vendor"]
        (FS.dir "vendor" [FS.dir "rails" []]) ⟨[], []⟩ =
      { excluded := [["/", "proj", "vendor"]],
        found := [{ path := ["/", "proj", "vendor"], pattern_name := "bundler" }] } :=
  (C5_first_candidate_wins
    [⟨"composer", "vendor", "composer.json"⟩, ⟨"bundler", "vendor", "Gemfile"⟩]
    [] [FS.file "Gemfile"] ["/", "proj", "vendor"] "vendor" [FS.dir "rails" []] ⟨[], []⟩
    [⟨"composer", "vendor", "composer.json"⟩] ⟨"bundler", "vendor", "Gemfile"⟩ []
    (by decide) (by decide) (by decide) (by decide) (by decide)).1

/-- C4: the sentinel check has exactly two modes, decided by the presence of
a glob metacharacter: glob mode succeeds iff some entry of the parent matches
the glob, exact mode succeeds iff an entry with exactly that name exists in
the parent; and the walker's decision at a directory is taken against the
parent's entries only — it does not depend on the candidate directory's own
contents. -/
theorem C4_sentinel_modes (pcs : List FS) (s : String) :
    (('*' ∈ s.data ∨ '?' ∈ s.data ∨ '[' ∈ s.data) →
      (sentinel_exists pcs s = true ↔ ∃ e ∈ pcs, globMatch s.data e.name.data = true))
    ∧ (¬ ('*' ∈ s.data ∨ '?' ∈ s.data ∨ '[' ∈ s.data) →
      (sentinel_exists pcs s = true ↔ ∃ e ∈ pcs, e.name = s))
    ∧ ∀ (pats : List Pattern) (skipSet : List FsPath) (path : FsPath) (nm : String)
        (cs cs' : List FS) (st : ScanState) (p : Pattern),
        (build_directory_index pats nm).find?
            (fun q => sentinel_exists pcs q.sentinel) = some p →
          path ∉ skipSet → path ∉ st.excluded →
          walkNode pats skipSet (some pcs) path (FS.dir nm cs) st =
            walkNode pats skipSet (some pcs) path (FS.dir nm cs') st := by
  have hmeta : (s.data.any (fun c => c == '*' || c == '?' || c == '[') = true) ↔
      ('*' ∈ s.data ∨ '?' ∈ s.data ∨ '[' ∈ s.data) := by
    simp only [List.any_eq_true, Bool.or_eq_true, beq_iff_eq]
    constructor
    · rintro ⟨c, hc, (rfl | rfl) | rfl⟩
      · exact Or.inl hc
      · exact Or.inr (Or.inl hc)
      · exact Or.inr (Or.inr hc)
    · rintro (hm | hm | hm)
      · exact ⟨'*', hm, Or.inl (Or.inl rfl)⟩
      · exact ⟨'?', hm, Or.inl (Or.inr rfl)⟩
      · exact ⟨'[', hm, Or.inr rfl⟩
  refine ⟨?_, ?_, ?_⟩
  · intro hcond
    unfold sentinel_exists
    rw [if_pos (hmeta.mpr hcond)]
    simp [List.any_eq_true]
  · intro hcond
    unfold sentinel_exists
    rw [if_neg (fun hc => hcond (hmeta.mp hc))]
    simp [List.any_eq_true]
  · intro pats skipSet path nm cs cs' st p hfind hskip hexc
    have e1 : walkNode pats skipSet (some pcs) path (FS.dir nm cs) st =
        { excluded := path :: st.excluded,
          found := st.found ++ [{ path := path, pattern_name := p.name }] } := by
      simp [walkNode, hskip, hexc, hfind]
    have e2 : walkNode pats skipSet (some pcs) path (FS.dir nm cs') st =
        { excluded := path :: st.excluded,
          found := st.found ++ [{ path := path, pattern_name := p.name }] } := by
      simp [walkNode, hskip, hexc, hfind]
    rw [e1, e2]

/-- C4 witness: the glob sentinel example from the spec: a parent holding
`App.csproj` satisfies `*.csproj`, one holding only `App.fsproj` does not. -/
theorem C4_witness :
    sentinel_exists [FS.file "App.csproj"] "*.csproj" = true ∧
      sentinel_exists [FS.file "App.fsproj"] "*.csproj" = false := by
  constructor
  · decide
  · decide

theorem walkNode_inv (pats : List Pattern) (skipSet : List FsPath) :
    ∀ (parentCs : Option (List FS)) (path : FsPath) (node : FS) (st : ScanState),
      WalkInv st → WalkInv (walkNode pats skipSet parentCs path node st) := by
  refine walkNode.induct pats skipSet
    (fun parentCs path node st =>
      WalkInv st → WalkInv (walkNode pats skipSet parentCs path node st))
    (fun pcs parentPath nodes st =>
      WalkInv st → WalkInv (walkChildren pats skipSet pcs parentPath nodes st))
    ?_ ?_ ?_ ?_ ?_ ?_ ?_ ?_
  · intro parentCs path st n hinv
    simpa [walkNode] using hinv
  · intro parentCs path st n children hskip hinv
    simpa [walkNode, hskip] using hinv
  · intro parentCs path st n children hskip hexc hinv
    simpa [walkNode, hskip, hexc] using hinv
  · intro path st n children hskip hexc pcs p hfind hinv
    have hw : walkNode pats skipSet (some pcs) path (FS.dir n children) st =
        { excluded := path :: st.excluded,
          found := st.found ++ [{ path := path, pattern_name := p.name }] } := by
      simp [walkNode, hskip, hexc, hfind]
    rw [hw]
    obtain ⟨hnd, hsub⟩ := hinv
    constructor
    · show (List.map ScanMatch.path
          (st.found ++ [{ path := path, pattern_name := p.name }])).Nodup
      rw [List.map_append, List.nodup_append]
      refine ⟨hnd, ?_, ?_⟩
      · simp
      · intro x hx hx1
        obtain ⟨m, hm, rfl⟩ := List.mem_map.mp hx
        simp only [List.map_cons, List.map_nil, List.mem_singleton] at hx1
        exact hexc (hx1 ▸ hsub m hm)
    · intro m hm
      rcases List.mem_append.mp hm with hm | hm
      · exact List.mem_cons_of_mem _ (hsub m hm)
      · rcases List.mem_singleton.mp hm with rfl
        exact List.mem_cons_self _ _
  · intro path st n children hskip hexc pcs hfind ih hinv
    have hw : walkNode pats skipSet (some pcs) path (FS.dir n children) st =
        walkChildren pats skipSet children path children st := by
      simp [walkNode, hskip, hexc, hfind]
    rw [hw]
    exact ih hinv
  · intro path st n children hskip hexc ih hinv
    have hw : walkNode pats skipSet none path (FS.dir n children) st =
        walkChildren pats skipSet children path children st := by
      simp [walkNode, hskip, hexc]
    rw [hw]
    exact ih hinv
  · intro pcs parentPath st hinv
    simpa [walkChildren] using hinv
  · intro pcs parentPath st c cs ih1 ih2 hinv
    have hw : walkChildren pats skipSet pcs parentPath (c :: cs) st =
        walkChildren pats skipSet pcs parentPath cs
          (walkNode pats skipSet (some pcs) (parentPath ++ [c.name]) c st) := by
      simp [walkChildren]
    rw [hw]
    exact ih2 (ih1 hinv)

theorem scanRoot_inv (pats : List Pattern) (skipSet : List FsPath) (fs : FS)
    (root : FsPath) (st : ScanState) (hinv : WalkInv st) :
    WalkInv (scanRoot pats skipSet fs root st) := by
  unfold scanRoot
  cases lookupAbs fs root with
  | none => exact hinv
  | some node => exact walkNode_inv pats skipSet _ root node st hinv

theorem foldlRoots_inv (pats : List Pattern) (skipSet : List FsPath) (fs : FS)
    (g : String → FsPath) :
    ∀ (l : List String) (st : ScanState), WalkInv st →
      WalkInv (l.foldl (fun st r => scanRoot pats skipSet fs (g r) st) st) := by
  intro l
  induction l with
  | nil => intro st h; simpa using h
  | cons r l ih =>
    intro st h
    simp only [List.foldl_cons]
    exact ih _ (scanRoot_inv _ _ _ _ _ h)

theorem scanWalk_inv (home : String) (cfg : Config) (pats : List Pattern) (fs : FS) :
    WalkInv (scanWalk home cfg pats fs) := by
  unfold scanWalk
  exact foldlRoots_inv pats (build_skip_set home cfg) fs
    (fun r => splitPath (expand_tilde_total home r)) cfg.scan_roots
    { excluded := [], found := [] } ⟨List.nodup_nil, by simp⟩

/-- C2: in any run, no directory path occurs twice among the pattern-match
records (the tree-walk phase's output): the walk prunes at every match and
checks `excluded_dirs` before matching, also across roots; the exclude-path
records are a separate pass appended afterwards without deduplication
against the pattern matches. -/
theorem C2_no_duplicate_pattern_matches (home : String) (cfg : Config)
    (pats : List Pattern) (fs : FS) :
    ((scanWalk home cfg pats fs).found.map ScanMatch.path).Nodup
    ∧ scan_optimized home cfg pats fs =
        (scanWalk home cfg pats fs).found ++ excludePass home cfg fs :=
  ⟨(scanWalk_inv home cfg pats fs).1, rfl⟩

theorem foldl_guard_push {α β : Type} (q : α → Bool) (g : α → β) :
    ∀ (l : List α) (acc : List β),
      l.foldl (fun a s => if q s then a ++ [g s] else a) acc =
        acc ++ l.filterMap (fun s => if q s then some (g s) else none) := by
  intro l
  induction l with
  | nil => intro acc; simp
  | cons x l ih =>
    intro acc
    simp only [List.foldl_cons, List.filterMap_cons]
    by_cases hx : q x = true
    · simp only [if_pos hx, ih]
      simp
    · simp only [if_neg hx, ih]

theorem excludePass_eq (home : String) (cfg : Config) (fs : FS) :
    excludePass home cfg fs =
      cfg.resolved_exclude_paths.filterMap (fun s =>
        if pathExists fs (splitPath (expand_tilde_total home s)) then
          some { path := splitPath (expand_tilde_total home s),
                 pattern_name := "exclude_path" }
        else none) := by
  unfold excludePass
  exact (foldl_guard_push
    (fun s => pathExists fs (splitPath (expand_tilde_total home s)))
    (fun s => ({ path := splitPath (expand_tilde_total home s),
                 pattern_name := "exclude_path" } : ScanMatch))
    cfg.resolved_exclude_paths []).trans (List.nil_append _)

/-- C6: after the walk, one `exclude_path` record is appended per resolved
exclude path that exists on disk, by a pass over the resolved list that is
independent of the walk: an existing resolved path always yields its record,
a non-existing one yields none, and the resolved list processed once has no
duplicate entries. -/
theorem C6_exclude_pass (home : String) (cfg : Config) (pats : List Pattern) (fs : FS) :
    scan_optimized home cfg pats fs =
      (scanWalk home cfg pats fs).found ++
        cfg.resolved_exclude_paths.filterMap (fun s =>
          if pathExists fs (splitPath (expand_tilde_total home s)) then
            some { path := splitPath (expand_tilde_total home s),
                   pattern_name := "exclude_path" }
          else none)
    ∧ (∀ s ∈ cfg.resolved_exclude_paths,
        pathExists fs (splitPath (expand_tilde_total home s)) = true →
          ScanMatch.mk (splitPath (expand_tilde_total home s)) "exclude_path" ∈
            excludePass home cfg fs)
    ∧ (∀ s ∈ cfg.resolved_exclude_paths,
        pathExists fs (splitPath (expand_tilde_total home s)) = false →
          ∀ m ∈ excludePass home cfg fs,
            m.path ≠ splitPath (expand_tilde_total home s))
    ∧ cfg.resolved_exclude_paths.Nodup := by
  refine ⟨?_, ?_, ?_, appendUnique_nodup _ _ (builtin_exclude_paths_nodup.filter _)⟩
  · unfold scan_optimized
    rw [excludePass_eq]
  · intro s hs hex
    rw [excludePass_eq]
    exact List.mem_filterMap.mpr ⟨s, hs, by rw [if_pos hex]⟩
  · intro s hs hex m hm hpath
    rw [excludePass_eq] at hm
    obtain ⟨u, hu, hf⟩ := List.mem_filterMap.mp hm
    by_cases hq : pathExists fs (splitPath (expand_tilde_total home u)) = true
    · rw [if_pos hq] at hf
      have hmp : m.path = splitPath (expand_tilde_total home u) := by
        cases Option.some.inj hf
        rfl
      rw [hmp] at hpath
      rw [hpath] at hq
      exact absurd hq (by rw [hex]; exact Bool.false_ne_true)
    · rw [if_neg hq] at hf
      exact Option.noConfusion hf
